import Mathlib

/-!
Verification of the webmux daemon core (a Go HTTP terminal-multiplexer server)
against its natural-language specification.

Go strings are byte strings; we model a Go `string` as a Lean `String` and
Go's `len` (byte length) as the sum of the UTF-8 sizes of its characters,
which agrees with Go on every input.  Stateful handlers are modelled as pure
state-passing functions; the external `tmux` process is modelled as an oracle
mapping an invoked argument vector to an optional failure message.
-/

namespace Webmux

/-- Byte length of a character list under UTF-8, mirroring Go `len(s)` on the
string whose runes are `l`. -/
def byteLen (l : List Char) : Nat := (l.map Char.utf8Size).sum

/-- Go `len(s)` for a string: its UTF-8 byte length. -/
def goLen (s : String) : Nat := byteLen s.data

/-- Go `strings.HasPrefix s pre`: byte-level check; on UTF-8 strings this
coincides with the character-list-level check because UTF-8 is a prefix code. -/
def goStartsWith (s pre : String) : Bool := pre.data.isPrefixOf s.data

/-- Substring search on character lists: does `needle` occur contiguously in
`hay`?  Mirrors Go `strings.Contains` at the level of runes. -/
def containsSub (needle hay : List Char) : Bool :=
  match hay with
  | [] => needle.isPrefixOf ([] : List Char)
  | _ :: t => needle.isPrefixOf hay || containsSub needle t

/-- Go `strings.Contains s sub`. -/
def goContains (s sub : String) : Bool := containsSub sub.data s.data

/- SECTION: key injection (`SendKeys`, `handleSessionKeys` in the server). -/

/-- Go struct `KeyStep`: a single step in a key sequence (`Type` is `"key"`
or `"text"`; `Value` is a key name or literal text). -/
structure KeyStep where
  type : String
  value : String
deriving DecidableEq, Repr

/-- Go struct `KeysRequest`: either a list of key names or a sequence of steps. -/
structure KeysRequest where
  keys : List String
  sequence : List KeyStep
deriving DecidableEq, Repr

/-- Go constant `maxKeysPerRequest`. -/
def maxKeysPerRequest : Nat := 100
/-- Go constant `maxKeyNameLength`. -/
def maxKeyNameLength : Nat := 32
/-- Go constant `maxTextStepLength`. -/
def maxTextStepLength : Nat := 4096
/-- Go constant `maxTotalTextLength`. -/
def maxTotalTextLength : Nat := 16384
/-- Go constant `maxKeysRequestSize` (32 KiB body limit in `handleSessionKeys`). -/
def maxKeysRequestSize : Nat := 32 * 1024

/-- Go map `validTmuxKeyNames`: the fixed allow-list of known key names. -/
def validTmuxKeyNames : List String :=
  ["C-a", "C-b", "C-c", "C-d", "C-e", "C-f",
   "C-g", "C-h", "C-i", "C-j", "C-k", "C-l",
   "C-m", "C-n", "C-o", "C-p", "C-q", "C-r",
   "C-s", "C-t", "C-u", "C-v", "C-w", "C-x",
   "C-y", "C-z", "C-\\", "C-]", "C-^", "C-_",
   "C-@", "C-[",
   "Enter", "Tab", "BTab", "Space", "BSpace",
   "Escape", "DC", "IC",
   "Up", "Down", "Left", "Right",
   "Home", "End", "PPage", "NPage",
   "F1", "F2", "F3", "F4", "F5", "F6",
   "F7", "F8", "F9", "F10", "F11", "F12",
   "M-a", "M-b", "M-c", "M-d", "M-e", "M-f",
   "M-g", "M-h", "M-i", "M-j", "M-k", "M-l",
   "M-m", "M-n", "M-o", "M-p", "M-q", "M-r",
   "M-s", "M-t", "M-u", "M-v", "M-w", "M-x",
   "M-y", "M-z"]

/-- Characters admitted by the permissive fallback pattern of
`isValidKeyName`: alphanumerics plus `-_[]\^@`. -/
def allowedKeyChar (r : Char) : Bool :=
  ('a' ≤ r && r ≤ 'z') || ('A' ≤ r && r ≤ 'Z') ||
  ('0' ≤ r && r ≤ '9') || r = '-' || r = '_' ||
  r = '[' || r = ']' || r = '\\' || r = '^' || r = '@'

/-- Go `isValidKeyName`: empty or over-32-byte names are rejected; then the
allow-list, then single printable ASCII characters, then the permissive
character-class fallback over all runes. -/
def isValidKeyName (key : String) : Bool :=
  if key = "" || goLen key > maxKeyNameLength then false
  else if validTmuxKeyNames.contains key then true
  else if goLen key = 1 &&
      key.data.all (fun c => 0x20 ≤ c.toNat && c.toNat ≤ 0x7E) then true
  else key.data.all allowedKeyChar

/-- The step list `SendKeys` executes: the extended `sequence` form takes
precedence, else the simple `keys` form is converted to key-typed steps,
else the request is rejected (`no keys or sequence provided`). -/
def buildSteps (req : KeysRequest) : Option (List KeyStep) :=
  if req.sequence.length > 0 then some req.sequence
  else if req.keys.length > 0 then
    some (req.keys.map (fun k => { type := "key", value := k }))
  else none

/-- The validation loop of `SendKeys`: walks the steps with the step index
`i` and the running total of text bytes, returning the first error message,
or `none` when every step validates. -/
def validateLoop : List KeyStep → Nat → Nat → Option String
  | [], _, _ => none
  | step :: rest, i, total =>
    if step.type = "key" then
      if isValidKeyName step.value then validateLoop rest (i + 1) total
      else some ("invalid key name at step " ++ toString i ++ ": " ++ step.value)
    else if step.type = "text" then
      if goLen step.value > maxTextStepLength then
        some ("text too long at step " ++ toString i ++ ": " ++
          toString (goLen step.value) ++ " bytes (max " ++ toString maxTextStepLength ++ ")")
      else if total + goLen step.value > maxTotalTextLength then
        some ("total text length exceeds limit: " ++
          toString (total + goLen step.value) ++ " bytes (max " ++
          toString maxTotalTextLength ++ ")")
      else validateLoop rest (i + 1) (total + goLen step.value)
    else some ("invalid step type at step " ++ toString i ++ ": " ++ step.type)

/-- Argument vector passed to the `tmux` executable for one step, after the
skip-empty checks: key steps pass the name as-is, text steps add the `-l`
(literal) flag; an unknown type leaves the argument vector empty (unreachable
after validation). -/
def stepArgs (socket sess : String) (step : KeyStep) : List String :=
  if step.type = "key" then ["-S", socket, "send-keys", "-t", sess, step.value]
  else if step.type = "text" then ["-S", socket, "send-keys", "-t", sess, "-l", step.value]
  else []

/-- The execution loop of `SendKeys`: issues one `tmux` invocation per
non-empty step, stopping at the first failing invocation.  Returns the list
of issued argument vectors and the error, if any.  `oracle` models the
external `tmux` process: `none` is success, `some out` a failure output. -/
def execSteps (oracle : List String → Option String) (socket sess : String) :
    List KeyStep → List (List String) × Option String
  | [] => ([], none)
  | step :: rest =>
    if step.type = "key" ∧ step.value = "" then execSteps oracle socket sess rest
    else if step.type = "text" ∧ step.value = "" then execSteps oracle socket sess rest
    else
      let args := stepArgs socket sess step
      match oracle args with
      | some out => ([args], some ("tmux send-keys failed: " ++ out))
      | none =>
        let r := execSteps oracle socket sess rest
        (args :: r.1, r.2)

/-- Outcome of `SendKeys`: the `tmux` invocations issued and the error. -/
structure SendKeysOutcome where
  issued : List (List String)
  err : Option String
deriving DecidableEq, Repr

/-- Go `SendKeys`: looks the session up (`getSession` maps a session id to
its tmux session name), re-checks the tmux session name format, builds the
step list, validates the count and every step, and only then executes. -/
def sendKeys (oracle : List String → Option String)
    (getSession : String → Option String) (socket : String)
    (id : String) (req : KeysRequest) : SendKeysOutcome :=
  match getSession id with
  | none => ⟨[], some ("session not found: " ++ id)⟩
  | some tmuxSession =>
    if ¬ (goStartsWith tmuxSession "mux-" = true) ∨ goLen tmuxSession > 15 then
      ⟨[], some "invalid tmux session name"⟩
    else
      match buildSteps req with
      | none => ⟨[], some "no keys or sequence provided"⟩
      | some steps =>
        if steps.length > maxKeysPerRequest then
          ⟨[], some ("too many steps: " ++ toString steps.length ++
            " (max " ++ toString maxKeysPerRequest ++ ")")⟩
        else
          match validateLoop steps 0 0 with
          | some e => ⟨[], some e⟩
          | none =>
            let r := execSteps oracle socket tmuxSession steps
            ⟨r.1, r.2⟩

/-- An HTTP response: status code and body text. -/
structure HttpResp where
  status : Nat
  body : String
deriving DecidableEq, Repr

/-- The request body seen by `handleSessionKeys` after `http.MaxBytesReader`
and JSON decoding: over-limit bodies fail with `request body too large`
(413), other decode failures are malformed (400), otherwise a request. -/
inductive KeysBody where
  | tooLarge
  | malformed
  | ok (req : KeysRequest)
deriving DecidableEq, Repr

/-- Go `handleSessionKeys` (POST): session-id format check, body decoding,
then `SendKeys`, whose error text is pattern-matched onto a status code.
Returns the response and the `tmux` invocations issued. -/
def handleSessionKeys (oracle : List String → Option String)
    (getSession : String → Option String) (socket : String)
    (sessionID : String) (body : KeysBody) : HttpResp × List (List String) :=
  if ¬ (goStartsWith sessionID "session-" = true) ∨ goLen sessionID > 20 then
    (⟨400, "Invalid session ID format"⟩, [])
  else
    match body with
    | .tooLarge => (⟨413, "Request body too large"⟩, [])
    | .malformed => (⟨400, "Invalid request"⟩, [])
    | .ok req =>
      let out := sendKeys oracle getSession socket sessionID req
      match out.err with
      | some msg =>
        if goContains msg "session not found" then (⟨404, msg⟩, out.issued)
        else if goContains msg "invalid" || goContains msg "too many" ||
            goContains msg "too long" then (⟨400, msg⟩, out.issued)
        else (⟨500, "Failed to send keys"⟩, out.issued)
      | none => (⟨200, "\x7b\"status\":\"ok\"\x7d"⟩, out.issued)

/- SECTION: marked files (`handleMarked`, `handleMarkedDownload`). -/

/-- Result of `os.Stat` on a path, restricted to what the handlers consult. -/
structure Stat where
  isDir : Bool
  isRegular : Bool
  size : Int
  modTime : Int
deriving DecidableEq, Repr

/-- A snapshot of the filesystem: what `os.Stat` answers for each path. -/
def FS := String → Option Stat

/-- Go struct `MarkedFile`. -/
structure MarkedFile where
  path : String
  name : String
  size : Int
  modTime : Int
  isDir : Bool
deriving DecidableEq, Repr

/-- Go `filepath.Base` on a cleaned path: the last path component (the part
after the final separator); `/` for the root. -/
def goBase (s : String) : String :=
  let last := (s.data.reverse.takeWhile (fun c => c ≠ '/')).reverse
  if last = [] then "/" else String.mk last

/-- Go `handleMarked` POST branch: stat the (already-cleaned) path, reject
non-regular non-directories, return early on an exact duplicate, 409 when a
marked directory is a path-boundary ancestor of the new path, 409 when the
new path is a directory with a marked descendant, else append.  Returns the
new list and the response. -/
def handleMarkedPost (fs : FS) (files : List MarkedFile) (filePath : String) :
    List MarkedFile × HttpResp :=
  match fs filePath with
  | none => (files, ⟨404, "File not found"⟩)
  | some info =>
    if info.isDir = false ∧ info.isRegular = false then
      (files, ⟨400, "Cannot mark this file type"⟩)
    else if ∃ f ∈ files, f.path = filePath then
      (files, ⟨200, "added: false"⟩)
    else if ∃ f ∈ files, f.isDir = true ∧ goStartsWith filePath (f.path ++ "/") = true then
      (files, ⟨409, "Parent directory is already marked"⟩)
    else if info.isDir = true ∧
        ∃ f ∈ files, goStartsWith f.path (filePath ++ "/") = true then
      (files, ⟨409, "Child is already marked; unmark it first"⟩)
    else
      (files ++ [⟨filePath, goBase filePath, info.size, info.modTime, info.isDir⟩],
        ⟨200, "added: true"⟩)

/-- Go `handleMarked` DELETE branch: with a `path` query parameter, remove
the entries at that (cleaned) path; without one, clear the list. -/
def handleMarkedDelete (files : List MarkedFile) (qpath : Option String) :
    List MarkedFile :=
  match qpath with
  | some p => files.filter (fun f => ¬ (f.path = p))
  | none => []

/-- The final step of `handleMarkedDownload` on the zip path: entries whose
paths were successfully added to the archive are removed from the list. -/
def removeDownloaded (files : List MarkedFile) (addedPaths : List String) :
    List MarkedFile :=
  files.filter (fun f => ¬ addedPaths.contains f.path)

/-- One path is a path-boundary ancestor of another exactly when the Go
check `strings.HasPrefix(q, p + "/")` succeeds. -/
def pathAbove (p q : String) : Prop := goStartsWith q (p ++ "/") = true

/-- The marked-files invariant: pairwise, no two entries share a path and
neither path is a path-boundary ancestor of the other (an antichain). -/
def antichain (files : List MarkedFile) : Prop :=
  files.Pairwise (fun f g =>
    f.path ≠ g.path ∧ ¬ pathAbove f.path g.path ∧ ¬ pathAbove g.path f.path)

/-- Every marked entry was statted when added: the filesystem still answers
for its path and agrees about directory-ness. -/
def statConsistent (fs : FS) (files : List MarkedFile) : Prop :=
  ∀ f ∈ files, ∃ st, fs f.path = some st ∧ st.isDir = f.isDir

/-- Filesystem sanity: a path lying strictly inside `p` (at a path boundary)
can only exist when `p` itself exists and is a directory. -/
def wellFormedFS (fs : FS) : Prop :=
  ∀ p q, (fs q).isSome → pathAbove p q → ∃ st, fs p = some st ∧ st.isDir = true

/- SECTION: UI state (`validateUIState`, `handleUIState`). -/

/-- Go struct `UIGroup`.  `splitRatios` models Go's `SplitRatio` field: the
server never computes with the ratio values, only copies or resets them, so
they are embedded as rationals; `cellMapping = []` models a nil slice. -/
structure UIGroup where
  id : String
  name : String
  sessionIds : List String
  layout : String
  expandedQuadrant : String
  splitRatios : List Rat
  cellMapping : List Int
deriving DecidableEq, Repr

/-- Go struct `UIState`. -/
structure UIState where
  groups : List UIGroup
  groupOrder : List String
  activeGroupId : String
  groupCounter : Int
  sidebarCollapsed : Bool
  customNames : List String
deriving DecidableEq, Repr

/-- Go `getDefaultLayout`. -/
def getDefaultLayout (count : Nat) : String :=
  match count with
  | 1 => "single"
  | 2 => "horizontal"
  | _ => "grid"

/-- Go `getDefaultSplitRatio` (nil is modelled as `[]`). -/
def getDefaultSplitRatios (count : Nat) : List Rat :=
  match count with
  | 1 => []
  | 2 => [(1 : Rat) / 2]
  | _ => [(1 : Rat) / 2, (1 : Rat) / 2]

/-- Per-group step of `validateUIState`: keep only live session ids, drop
the group when none remain, and reset layout, ratio and mapping to defaults
when the surviving count differs from the stored count. -/
def validateGroup (live : List String) (g : UIGroup) : Option UIGroup :=
  if (g.sessionIds.filter (fun sid => live.contains sid)).length > 0 then
    if (g.sessionIds.filter (fun sid => live.contains sid)).length ≠
        g.sessionIds.length then
      some { g with
        sessionIds := g.sessionIds.filter (fun sid => live.contains sid),
        layout := getDefaultLayout
          (g.sessionIds.filter (fun sid => live.contains sid)).length,
        splitRatios := getDefaultSplitRatios
          (g.sessionIds.filter (fun sid => live.contains sid)).length,
        cellMapping := [] }
    else
      some { g with
        sessionIds := g.sessionIds.filter (fun sid => live.contains sid) }
  else none

/-- The append phase of `validateUIState`: any kept group whose id is not yet
in the order is appended (checked against the order as it grows). -/
def appendMissing (validGroups : List UIGroup) (ord : List String) : List String :=
  validGroups.foldl (fun o g => if o.contains g.id then o else o ++ [g.id]) ord

/-- The `validGroups` local of Go `validateUIState`: groups filtered to live
sessions, empty groups dropped. -/
def validGroupsOf (live : List String) (state : UIState) : List UIGroup :=
  state.groups.filterMap (validateGroup live)

/-- The `validGroupIDs` local of Go `validateUIState`: the ids of the kept
groups. -/
def validIdsOf (live : List String) (state : UIState) : List String :=
  (validGroupsOf live state).map UIGroup.id

/-- The `validOrder` local of Go `validateUIState`: the stored order
restricted to kept groups, with any kept group not yet listed appended. -/
def validOrderOf (live : List String) (state : UIState) : List String :=
  appendMissing (validGroupsOf live state)
    (state.groupOrder.filter (fun gid => (validIdsOf live state).contains gid))

/-- The `activeGroupID` local of Go `validateUIState`: re-aimed at the first
ordered group when stale, cleared when no groups remain. -/
def activeOf (live : List String) (state : UIState) : String :=
  if ¬ ((validIdsOf live state).contains state.activeGroupId = true) ∧
      (validOrderOf live state).length > 0 then
    (validOrderOf live state).headD ""
  else if (validOrderOf live state).length = 0 then ""
  else state.activeGroupId

/-- Go `validateUIState`: filters groups to live sessions, rebuilds the
order, prunes custom names, re-aims the active group, and resets the group
counter when no groups remain.  `live` is the list of live session ids. -/
def validateUIState (live : List String) (state : UIState) : UIState :=
  { groups := validGroupsOf live state
    groupOrder := validOrderOf live state
    activeGroupId := activeOf live state
    groupCounter := if (validGroupsOf live state).length = 0 then 0
      else state.groupCounter
    sidebarCollapsed := state.sidebarCollapsed
    customNames := state.customNames.filter (fun sid => live.contains sid) }

/-- HTTP methods the UI-state handler distinguishes. -/
inductive UIMethod where
  | get
  | post (body : Option UIState)
deriving DecidableEq, Repr

/-- Go `handleUIState`: GET re-validates the stored state against the live
sessions and returns it without storing; POST validates the decoded body and
stores the validated state (a decode failure is a 400 and stores nothing).
Returns the new stored state and the response. -/
def handleUIState (live : List String) (stored : UIState) (method : UIMethod) :
    UIState × Nat × Option UIState :=
  match method with
  | .get => (stored, 200, some (validateUIState live stored))
  | .post none => (stored, 400, none)
  | .post (some body) =>
    let valid := validateUIState live body
    (valid, 200, some valid)

/- SECTION: session registry counters (`CreateSession`, `CloseSession`). -/

/-- Two's-complement wrap-around of Go `int32` arithmetic. -/
def wrap32 (x : Int) : Int := (x + 2 ^ 31) % 2 ^ 32 - 2 ^ 31

/-- The session record fields relevant to the registry counters. -/
structure SessionRec where
  id : String
  name : String
  port : Int
  tmuxSession : String
deriving DecidableEq, Repr

/-- The session-manager state relevant to the registry counters: the session
map (as an association list keyed by id) and the two atomic `int32`
counters, plus the configured seed port. -/
structure SMState where
  sessions : List (String × SessionRec)
  nextPort : Int
  nextNameNum : Int
  startPort : Int
deriving DecidableEq, Repr

/-- Go `NewSessionManager startPort …`: both port counters start at the seed
and the default-name counter at zero. -/
def newSMState (startPort : Int) : SMState :=
  ⟨[], startPort, startPort, 0⟩

/-- Go `CreateSession` (successful path): atomically increments the port
counter, derives the id and tmux session name from the port, substitutes the
default-name counter for an empty requested name, and registers the session. -/
def createSession (st : SMState) (name : String) : SMState × SessionRec :=
  let port := wrap32 (st.nextPort + 1)
  let id := "session-" ++ toString port
  let tmux := "mux-" ++ toString port
  let nameNum := wrap32 (st.nextNameNum + 1)
  let name' := if name = "" then toString nameNum else name
  let nextName' := if name = "" then nameNum else st.nextNameNum
  let sess : SessionRec := ⟨id, name', port, tmux⟩
  ({ st with nextPort := port, nextNameNum := nextName',
             sessions := st.sessions ++ [(id, sess)] }, sess)

/-- Go `resetCounters`: port counter back to the seed, name counter to zero. -/
def resetCounters (st : SMState) : SMState :=
  { st with nextPort := st.startPort, nextNameNum := 0 }

/-- Go `CloseSession`: missing id is an error; otherwise the session is
removed, and when the map becomes empty both counters are reset. -/
def closeSession (st : SMState) (id : String) : SMState × Option String :=
  match st.sessions.find? (fun e => e.1 = id) with
  | none => (st, some ("session not found: " ++ id))
  | some _ =>
    let remaining := st.sessions.filter (fun e => ¬ (e.1 = id))
    let st' := { st with sessions := remaining }
    if remaining.length = 0 then (resetCounters st', none) else (st', none)

/- SECTION: clipboard. -/

/-- Modelled from the spec: the server-side clipboard store and its handlers
(`GET /api/clipboard`, `GET /api/clipboard/version`, `POST /api/clipboard`)
are not among the provided source files — only their callers are (the
browser polls `/api/clipboard/version` and the `wm` CLI posts to
`/api/clipboard`).  Per the spec, the store is a single text value paired
with a non-negative integer version, starting empty at version 0. -/
structure Clipboard where
  text : String
  version : Int
deriving DecidableEq, Repr

/-- Modelled from the spec: the clipboard starts empty with version 0. -/
def clipboardInit : Clipboard := ⟨"", 0⟩

/-- The three clipboard endpoints. -/
inductive ClipOp where
  | getText
  | getVersion
  | post (body : String)
deriving DecidableEq, Repr

/-- Modelled from the spec: `GET /api/clipboard` returns the text,
`GET /api/clipboard/version` returns the version as decimal text, and
`POST /api/clipboard` replaces the text and increments the version on every
successful write, even if the new content equals the old.  Returns the new
store and the response body. -/
def clipStep (c : Clipboard) (op : ClipOp) : Clipboard × String :=
  match op with
  | .getText => (c, c.text)
  | .getVersion => (c, toString c.version)
  | .post body => (⟨body, c.version + 1⟩, "")

/-- The clipboard store after a sequence of requests from startup. -/
def clipRun (ops : List ClipOp) : Clipboard :=
  ops.foldl (fun c op => (clipStep c op).1) clipboardInit

/- SECTION: event streams (`handleScratchEvents`, `handleMarkedEvents`). -/

/-- One server-sent event on the scratch stream: a type tag and a text
payload. -/
structure SSEEvent where
  type : String
  payload : String
deriving DecidableEq, Repr

/-- The scratch subscriber-side message parser: a message `type:content` is
split at the first colon; a colon-free message is a bare `text` event. -/
def parseScratchMsg (msg : String) : SSEEvent :=
  if msg.data.contains ':' then
    ⟨String.mk (msg.data.takeWhile (fun c => c ≠ ':')),
     String.mk ((msg.data.dropWhile (fun c => c ≠ ':')).drop 1)⟩
  else ⟨"text", msg⟩

/-- The messages `notifyScratchSubscribers` can carry: `handleScratch` sends
`text:`+text on write, `toggle:`+text on toggle, and `clear:` on delete. -/
inductive ScratchMsg : String → Prop where
  | write (t : String) : ScratchMsg ("text:" ++ t)
  | toggle (t : String) : ScratchMsg ("toggle:" ++ t)
  | clear : ScratchMsg "clear:"

/-- The event stream `handleScratchEvents` writes to one subscriber: the
`init` event carrying the current text is written first, then one event per
message received on the subscriber channel until it closes. -/
def scratchStream (current : String) (msgs : List String) : List SSEEvent :=
  ⟨"init", current⟩ :: msgs.map parseScratchMsg

/-- One server-sent event on the marked stream: a type tag and the file
list payload. -/
structure MarkedEvent where
  type : String
  files : List MarkedFile
deriving DecidableEq, Repr

/-- The event stream `handleMarkedEvents` writes to one subscriber: the
`init` event carrying the current list first, then one `update` event (with
the list as read at that moment) per message received until the channel
closes. -/
def markedStream (current : List MarkedFile) (snapshots : List (List MarkedFile)) :
    List MarkedEvent :=
  ⟨"init", current⟩ :: snapshots.map (fun fs => ⟨"update", fs⟩)

/- SECTION: derived notions used by the claims. -/

/-- Total byte length of all text steps, as accumulated by the validation
loop of `SendKeys`. -/
def totalTextLen (steps : List KeyStep) : Nat :=
  (steps.map (fun s => if s.type = "text" then goLen s.value else 0)).sum

/-- A step list is invalid when it breaks any of the documented limits: more
than 100 steps, a key step whose name fails `isValidKeyName` (which includes
names over 32 bytes), a text step over 4096 bytes, total text over 16384
bytes, or a step of unknown type. -/
def invalidKeysSteps (steps : List KeyStep) : Prop :=
  steps.length > maxKeysPerRequest ∨
  (∃ s ∈ steps, s.type = "key" ∧ isValidKeyName s.value = false) ∨
  (∃ s ∈ steps, s.type = "text" ∧ goLen s.value > maxTextStepLength) ∨
  totalTextLen steps > maxTotalTextLength ∨
  (∃ s ∈ steps, s.type ≠ "key" ∧ s.type ≠ "text")

/-- A `tmux` oracle on which every invocation succeeds. -/
def okOracle : List String → Option String := fun _ => none

/-- A key step whose name is `n` letters `a` (so exactly `n` bytes). -/
def aKey (n : Nat) : KeyStep := ⟨"key", String.mk (List.replicate n 'a')⟩

/-- A text step of exactly `n` bytes (`n` letters `a`). -/
def aText (n : Nat) : KeyStep := ⟨"text", String.mk (List.replicate n 'a')⟩

/-- A concrete session table holding the single live session `session-7701`,
used to instantiate the handler theorems. -/
def demoGetSession : String → Option String :=
  fun i => if i = "session-7701" then some "mux-7701" else none

/-- A concrete filesystem on which every path stats as a directory, used to
instantiate the marked-files theorems. -/
def allDirsFS : FS := fun _ => some ⟨true, false, 0, 0⟩

/-- A concrete UI state referencing one live and one dead session, used to
instantiate the UI-state theorems. -/
def demoUIState : UIState :=
  { groups := [⟨"g1", "G", ["session-1", "session-9999"], "horizontal", "", [], [0, 1]⟩,
               ⟨"g2", "H", ["session-9999"], "single", "", [], []⟩]
    groupOrder := ["g2", "g1"]
    activeGroupId := "g2"
    groupCounter := 5
    sidebarCollapsed := false
    customNames := ["session-9999", "session-1"] }

/- SECTION: helper lemmas. -/

/-- The `int32` wrap is the identity inside the representable range. -/
theorem wrap32_eq_self (x : Int) (hlo : -2 ^ 31 ≤ x) (hhi : x < 2 ^ 31) :
    wrap32 x = x := by
  unfold wrap32
  rw [Int.emod_eq_of_lt (by omega) (by omega)]
  omega

/-- Soundness of the validation loop: when it accepts, every step is a valid
key step or a within-limit text step, and the accumulated text stays within
the total limit (unless there is no text at all). -/
theorem validateLoop_none_sound :
    ∀ (steps : List KeyStep) (i total : Nat),
      validateLoop steps i total = none →
      (∀ s ∈ steps,
        (s.type = "key" ∧ isValidKeyName s.value = true) ∨
        (s.type = "text" ∧ goLen s.value ≤ maxTextStepLength)) ∧
      (totalTextLen steps = 0 ∨ total + totalTextLen steps ≤ maxTotalTextLength) := by
  intro steps
  induction steps with
  | nil => intro i total _; exact ⟨by simp, Or.inl rfl⟩
  | cons step rest ih =>
    intro i total h
    rw [validateLoop] at h
    by_cases hk : step.type = "key"
    · rw [if_pos hk] at h
      by_cases hv : isValidKeyName step.value
      · rw [if_pos hv] at h
        obtain ⟨h1, h2⟩ := ih (i + 1) total h
        refine ⟨?_, ?_⟩
        · intro s hs
          rcases List.mem_cons.mp hs with rfl | hs
          · exact Or.inl ⟨hk, hv⟩
          · exact h1 s hs
        · have : totalTextLen (step :: rest) = totalTextLen rest := by
            simp [totalTextLen, hk]
          rw [this]
          exact h2
      · rw [if_neg hv] at h
        exact absurd h (by simp)
    · rw [if_neg hk] at h
      by_cases ht : step.type = "text"
      · rw [if_pos ht] at h
        by_cases hlong : goLen step.value > maxTextStepLength
        · rw [if_pos hlong] at h
          exact absurd h (by simp)
        · rw [if_neg hlong] at h
          by_cases htot : total + goLen step.value > maxTotalTextLength
          · rw [if_pos htot] at h
            exact absurd h (by simp)
          · rw [if_neg htot] at h
            obtain ⟨h1, h2⟩ := ih (i + 1) (total + goLen step.value) h
            have htl : totalTextLen (step :: rest) =
                goLen step.value + totalTextLen rest := by
              simp [totalTextLen, ht]
            refine ⟨?_, ?_⟩
            · intro s hs
              rcases List.mem_cons.mp hs with rfl | hs
              · exact Or.inr ⟨ht, by omega⟩
              · exact h1 s hs
            · rw [htl]
              rcases h2 with h2 | h2
              · right; omega
              · right; omega
      · rw [if_neg ht] at h
        exact absurd h (by simp)

/-- When the step list is within the count limit and the validation loop
accepts it, it does not satisfy `invalidKeysSteps`. -/
theorem validateLoop_none_not_invalid (steps : List KeyStep)
    (hlen : ¬ steps.length > maxKeysPerRequest)
    (h : validateLoop steps 0 0 = none) : ¬ invalidKeysSteps steps := by
  obtain ⟨hsteps, htot⟩ := validateLoop_none_sound steps 0 0 h
  intro hinv
  rcases hinv with h1 | h2 | h3 | h4 | h5
  · exact hlen h1
  · obtain ⟨s, hs, hkey, hbad⟩ := h2
    rcases hsteps s hs with ⟨_, hgood⟩ | ⟨htext, _⟩
    · rw [hgood] at hbad; exact absurd hbad (by decide)
    · rw [hkey] at htext; exact absurd htext (by decide)
  · obtain ⟨s, hs, htext, hbig⟩ := h3
    rcases hsteps s hs with ⟨hkey, _⟩ | ⟨_, hsmall⟩
    · rw [htext] at hkey; exact absurd hkey (by decide)
    · omega
  · rcases htot with h0 | hle
    · rw [h0] at h4; exact absurd h4 (by decide)
    · have : maxTotalTextLength < maxTotalTextLength := lt_of_lt_of_le h4 (by omega)
      exact absurd this (by omega)
  · obtain ⟨s, hs, hnk, hnt⟩ := h5
    rcases hsteps s hs with ⟨hkey, _⟩ | ⟨htext, _⟩
    · exact hnk hkey
    · exact hnt htext

/-- With an always-succeeding `tmux` oracle the execution loop reports no
error. -/
theorem execSteps_ok (socket sess : String) :
    ∀ steps, (execSteps okOracle socket sess steps).2 = none := by
  intro steps
  induction steps with
  | nil => rfl
  | cons step rest ih =>
    rw [execSteps]
    by_cases h1 : step.type = "key" ∧ step.value = ""
    · rw [if_pos h1]; exact ih
    · rw [if_neg h1]
      by_cases h2 : step.type = "text" ∧ step.value = ""
      · rw [if_pos h2]; exact ih
      · rw [if_neg h2]
        simpa [okOracle] using ih

/-- The validation loop accepts any list of valid key steps. -/
theorem validateLoop_keys_valid :
    ∀ (steps : List KeyStep) (i total : Nat),
      (∀ s ∈ steps, s.type = "key" ∧ isValidKeyName s.value = true) →
      validateLoop steps i total = none := by
  intro steps
  induction steps with
  | nil => intro i total _; rfl
  | cons step rest ih =>
    intro i total h
    obtain ⟨hk, hv⟩ := h step (by simp)
    rw [validateLoop, if_pos hk, if_pos hv]
    exact ih (i + 1) total (fun s hs => h s (List.mem_cons_of_mem _ hs))

/-- Byte length of a run of `n` letters `a`. -/
theorem goLen_mk_replicate_a (n : Nat) :
    goLen (String.mk (List.replicate n 'a')) = n := by
  show byteLen (List.replicate n 'a') = n
  rw [byteLen, List.map_replicate, List.sum_replicate,
    show ('a'.utf8Size) = 1 from rfl, smul_eq_mul, mul_one]

/-- On the concrete session table, `SendKeys` on an in-limit validated step
list succeeds (with the all-success oracle). -/
theorem sendKeys_demo_ok (req : KeysRequest) (steps : List KeyStep)
    (hb : buildSteps req = some steps)
    (hlen : ¬ steps.length > maxKeysPerRequest)
    (hv : validateLoop steps 0 0 = none) :
    (sendKeys okOracle demoGetSession "/sock" "session-7701" req).err = none := by
  have hpre : goStartsWith "mux-7701" "mux-" = true := by decide
  have hl : ¬ (goLen "mux-7701" > 15) := by decide
  simp [sendKeys, demoGetSession, hpre, hl, hb, hlen, hv, execSteps_ok]

/-- On the concrete session table, `SendKeys` fails when the step count is
over the limit or the validation loop rejects. -/
theorem sendKeys_demo_err (req : KeysRequest) (steps : List KeyStep)
    (hb : buildSteps req = some steps)
    (h : steps.length > maxKeysPerRequest ∨ (validateLoop steps 0 0).isSome = true) :
    ((sendKeys okOracle demoGetSession "/sock" "session-7701" req).err).isSome = true := by
  have hpre : goStartsWith "mux-7701" "mux-" = true := by decide
  have hl : ¬ (goLen "mux-7701" > 15) := by decide
  rcases h with h | h
  · simp [sendKeys, demoGetSession, hpre, hl, hb, h]
  · obtain ⟨e, he⟩ := Option.isSome_iff_exists.mp h
    by_cases hlen : steps.length > maxKeysPerRequest
    · simp [sendKeys, demoGetSession, hpre, hl, hb, hlen]
    · simp [sendKeys, demoGetSession, hpre, hl, hb, hlen, he]

/-- An invalid step list makes `SendKeys` fail during validation, before the
execution loop starts: no `tmux` invocation is issued. -/
theorem sendKeys_invalid_issued_nil (oracle : List String → Option String)
    (getSession : String → Option String) (socket id : String)
    (req : KeysRequest) (steps : List KeyStep)
    (hb : buildSteps req = some steps) (hinv : invalidKeysSteps steps) :
    (sendKeys oracle getSession socket id req).issued = [] := by
  unfold sendKeys
  split
  · rfl
  · split
    · rfl
    · rw [hb]
      simp only []
      split
      · rfl
      · rename_i hlen
        split
        · rfl
        · rename_i hv
          exact absurd hinv (validateLoop_none_not_invalid steps hlen hv)

/-- C2: an invalid request to `POST /api/sessions/{id}/keys` on a live
session — over 100 steps, a bad or over-long key name, an over-long text
step, over-limit total text, an unknown step type, or a body over 32 KiB —
causes zero side effects: no key-injection command reaches the persistence
layer. -/
theorem keysRequest_invalid_zero_side_effects :
    ∀ (oracle : List String → Option String)
      (getSession : String → Option String)
      (socket id tmuxSession : String) (body : KeysBody),
      getSession id = some tmuxSession →
      (body = KeysBody.tooLarge ∨
        ∃ req steps, body = KeysBody.ok req ∧ buildSteps req = some steps ∧
          invalidKeysSteps steps) →
      (handleSessionKeys oracle getSession socket id body).2 = [] := by
  intro oracle getSession socket id t body _ hbody
  rcases hbody with rfl | ⟨req, steps, rfl, hb, hinv⟩
  · unfold handleSessionKeys
    split <;> rfl
  · have hnil := sendKeys_invalid_issued_nil oracle getSession socket id req steps hb hinv
    unfold handleSessionKeys
    split
    · rfl
    · simp only []
      split
      · split
        · exact hnil
        · split
          · exact hnil
          · exact hnil
      · exact hnil

/-- Witness for C2: on the concrete session table with live session
`session-7701`, a 101-step request issues no `tmux` invocation. -/
theorem keysRequest_invalid_zero_side_effects_witness :
    demoGetSession "session-7701" = some "mux-7701" ∧
    (handleSessionKeys okOracle demoGetSession "/sock" "session-7701"
      (KeysBody.ok ⟨[], List.replicate 101 ⟨"key", "a"⟩⟩)).2 = [] := by
  refine ⟨rfl, ?_⟩
  refine keysRequest_invalid_zero_side_effects okOracle demoGetSession "/sock"
    "session-7701" "mux-7701" _ rfl (Or.inr ?_)
  refine ⟨⟨[], List.replicate 101 ⟨"key", "a"⟩⟩, List.replicate 101 ⟨"key", "a"⟩,
    rfl, by simp [buildSteps], Or.inl (by simp [maxKeysPerRequest])⟩

/-- C3: key-injection validation accepts requests exactly at the documented
limits: 100 steps accepted, 101 rejected; a grammar-passing key name of 32
bytes accepted, 33 rejected; a text step of 4096 bytes accepted, 4097
rejected; total text of 16384 bytes accepted, 16385 rejected. -/
theorem sendKeys_boundary_limits :
    goLen (aKey 32).value = 32 ∧
    isValidKeyName (aKey 32).value = true ∧
    goLen (aText 4096).value = 4096 ∧
    ((sendKeys okOracle demoGetSession "/sock" "session-7701"
      ⟨[], List.replicate 100 ⟨"key", "a"⟩⟩).err = none) ∧
    ((sendKeys okOracle demoGetSession "/sock" "session-7701"
      ⟨[], List.replicate 101 ⟨"key", "a"⟩⟩).err.isSome = true) ∧
    ((sendKeys okOracle demoGetSession "/sock" "session-7701"
      ⟨[], [aKey 32]⟩).err = none) ∧
    ((sendKeys okOracle demoGetSession "/sock" "session-7701"
      ⟨[], [aKey 33]⟩).err.isSome = true) ∧
    ((sendKeys okOracle demoGetSession "/sock" "session-7701"
      ⟨[], [aText 4096]⟩).err = none) ∧
    ((sendKeys okOracle demoGetSession "/sock" "session-7701"
      ⟨[], [aText 4097]⟩).err.isSome = true) ∧
    ((sendKeys okOracle demoGetSession "/sock" "session-7701"
      ⟨[], [aText 4096, aText 4096, aText 4096, aText 4096]⟩).err = none) ∧
    ((sendKeys okOracle demoGetSession "/sock" "session-7701"
      ⟨[], [aText 4096, aText 4096, aText 4096, aText 4096,
            ⟨"text", "a"⟩]⟩).err.isSome = true) := by
  have h32 : isValidKeyName (aKey 32).value = true := by decide
  have h33 : isValidKeyName (aKey 33).value = false := by decide
  have hga : goLen "a" = 1 := rfl
  have hkey : ∀ n, (aKey n).type = "key" := fun n => rfl
  have htext : ∀ n, (aText n).type = "text" := fun n => rfl
  have hlen : ∀ n, goLen (aText n).value = n := fun n => goLen_mk_replicate_a n
  refine ⟨goLen_mk_replicate_a 32, h32, hlen 4096, ?_, ?_, ?_, ?_, ?_, ?_, ?_, ?_⟩
  · refine sendKeys_demo_ok ⟨[], List.replicate 100 ⟨"key", "a"⟩⟩
      (List.replicate 100 ⟨"key", "a"⟩)
      (by simp [buildSteps]) (by simp [maxKeysPerRequest]) ?_
    refine validateLoop_keys_valid _ 0 0 ?_
    intro s hs
    rw [List.mem_replicate] at hs
    rw [hs.2]
    exact ⟨rfl, by decide⟩
  · exact sendKeys_demo_err ⟨[], List.replicate 101 ⟨"key", "a"⟩⟩
      (List.replicate 101 ⟨"key", "a"⟩)
      (by simp [buildSteps]) (Or.inl (by simp [maxKeysPerRequest]))
  · refine sendKeys_demo_ok ⟨[], [aKey 32]⟩ [aKey 32]
      (by simp [buildSteps]) (by simp [maxKeysPerRequest]) ?_
    simp [validateLoop, hkey, h32]
  · refine sendKeys_demo_err ⟨[], [aKey 33]⟩ [aKey 33]
      (by simp [buildSteps]) (Or.inr ?_)
    simp [validateLoop, hkey, h33]
  · refine sendKeys_demo_ok ⟨[], [aText 4096]⟩ [aText 4096]
      (by simp [buildSteps]) (by simp [maxKeysPerRequest]) ?_
    simp [validateLoop, htext, hlen, maxTextStepLength, maxTotalTextLength]
  · refine sendKeys_demo_err ⟨[], [aText 4097]⟩ [aText 4097]
      (by simp [buildSteps]) (Or.inr ?_)
    simp [validateLoop, htext, hlen, maxTextStepLength]
  · refine sendKeys_demo_ok ⟨[], [aText 4096, aText 4096, aText 4096, aText 4096]⟩
      [aText 4096, aText 4096, aText 4096, aText 4096]
      (by simp [buildSteps]) (by simp [maxKeysPerRequest]) ?_
    simp [validateLoop, htext, hlen, maxTextStepLength, maxTotalTextLength]
  · refine sendKeys_demo_err
      ⟨[], [aText 4096, aText 4096, aText 4096, aText 4096, ⟨"text", "a"⟩]⟩
      [aText 4096, aText 4096, aText 4096, aText 4096, ⟨"text", "a"⟩]
      (by simp [buildSteps]) (Or.inr ?_)
    simp [validateLoop, htext, hlen, hga, maxTextStepLength, maxTotalTextLength]

/-- In a list with pairwise-distinct paths, filtering for the path of a
member leaves exactly one entry. -/
theorem filter_path_length_one (files : List MarkedFile) (p : String)
    (hd : files.Pairwise (fun f g => f.path ≠ g.path))
    (hmem : ∃ f ∈ files, f.path = p) :
    (files.filter (fun f => f.path == p)).length = 1 := by
  induction files with
  | nil => simp at hmem
  | cons f rest ih =>
    rw [List.pairwise_cons] at hd
    obtain ⟨hne, hd'⟩ := hd
    by_cases hfp : f.path = p
    · rw [List.filter_cons_of_pos (by simpa using hfp)]
      have hnil : rest.filter (fun g => g.path == p) = [] := by
        rw [List.filter_eq_nil_iff]
        intro g hg
        have := hne g hg
        rw [hfp] at this
        simpa using fun he => this he.symm
      rw [hnil]
      rfl
    · rw [List.filter_cons_of_neg (by simpa using hfp)]
      refine ih hd' ?_
      obtain ⟨g, hg, hgp⟩ := hmem
      rcases List.mem_cons.mp hg with rfl | hg
      · exact absurd hgp hfp
      · exact ⟨g, hg, hgp⟩

/-- Adding a path through `handleMarked` POST preserves the antichain
invariant and stat-consistency, for any well-formed filesystem snapshot. -/
theorem handleMarkedPost_preserves (fs : FS) (files : List MarkedFile) (p : String)
    (hW : wellFormedFS fs) (hA : antichain files) (hS : statConsistent fs files) :
    antichain (handleMarkedPost fs files p).1 ∧
    statConsistent fs (handleMarkedPost fs files p).1 := by
  unfold handleMarkedPost
  split
  · exact ⟨hA, hS⟩
  · rename_i info hst
    split
    · exact ⟨hA, hS⟩
    · split
      · exact ⟨hA, hS⟩
      · rename_i hdup
        split
        · exact ⟨hA, hS⟩
        · rename_i hpar
          split
          · exact ⟨hA, hS⟩
          · rename_i hchild
            constructor
            · rw [antichain, List.pairwise_append]
              refine ⟨hA, List.pairwise_singleton _ _, ?_⟩
              intro f hf m hm
              rw [List.mem_singleton] at hm
              subst hm
              refine ⟨fun he => hdup ⟨f, hf, he⟩, ?_, ?_⟩
              · intro hab
                obtain ⟨st, hstf, hdir⟩ := hW f.path p (by rw [hst]; rfl) hab
                obtain ⟨st', hstf', hdir'⟩ := hS f hf
                rw [hstf] at hstf'
                injection hstf' with h
                subst h
                exact hpar ⟨f, hf, by rw [← hdir']; exact hdir, hab⟩
              · intro hab
                obtain ⟨st', hstf', _⟩ := hS f hf
                obtain ⟨stp, hstp, hdirp⟩ := hW p f.path (by rw [hstf']; rfl) hab
                rw [hst] at hstp
                injection hstp with h
                subst h
                exact hchild ⟨hdirp, f, hf, hab⟩
            · intro f hf
              rcases List.mem_append.mp hf with hf | hf
              · exact hS f hf
              · rw [List.mem_singleton] at hf
                subst hf
                exact ⟨info, hst, rfl⟩

/-- C4: every accepted mutation of the marked-files list (add, remove,
clear, post-download removal) leaves the list an antichain — no duplicate
paths, no entry a path-boundary ancestor of another — on any well-formed
filesystem snapshot; an add that would break the antichain answers 409 and
leaves the list unchanged, and adding an exactly-already-marked path leaves
a single entry at that path. -/
theorem marked_files_antichain :
    ∀ (fs : FS) (files : List MarkedFile) (p : String) (q : Option String)
      (addedPaths : List String),
      wellFormedFS fs → antichain files → statConsistent fs files →
      (antichain (handleMarkedPost fs files p).1 ∧
        statConsistent fs (handleMarkedPost fs files p).1) ∧
      (∀ info, fs p = some info →
        ¬ (info.isDir = false ∧ info.isRegular = false) →
        (¬ ∃ f ∈ files, f.path = p) →
        ((∃ f ∈ files, f.isDir = true ∧ goStartsWith p (f.path ++ "/") = true) ∨
          (info.isDir = true ∧
            ∃ f ∈ files, goStartsWith f.path (p ++ "/") = true)) →
        (handleMarkedPost fs files p).2.status = 409 ∧
        (handleMarkedPost fs files p).1 = files) ∧
      (∀ info, fs p = some info →
        ¬ (info.isDir = false ∧ info.isRegular = false) →
        (∃ f ∈ files, f.path = p) →
        (handleMarkedPost fs files p).1 = files ∧
        ((handleMarkedPost fs files p).1.filter
          (fun f => f.path == p)).length = 1) ∧
      antichain (handleMarkedDelete files q) ∧
      antichain (removeDownloaded files addedPaths) := by
  intro fs files p q addedPaths hW hA hS
  refine ⟨handleMarkedPost_preserves fs files p hW hA hS, ?_, ?_, ?_, ?_⟩
  · intro info hst hty hdup hconf
    unfold handleMarkedPost
    simp only [hst]
    rw [if_neg hty, if_neg hdup]
    rcases hconf with hpar | hchild
    · rw [if_pos hpar]
      exact ⟨rfl, rfl⟩
    · by_cases hpar : ∃ f ∈ files, f.isDir = true ∧ goStartsWith p (f.path ++ "/") = true
      · rw [if_pos hpar]
        exact ⟨rfl, rfl⟩
      · rw [if_neg hpar, if_pos hchild]
        exact ⟨rfl, rfl⟩
  · intro info hst hty hdup
    unfold handleMarkedPost
    simp only [hst]
    rw [if_neg hty, if_pos hdup]
    refine ⟨rfl, ?_⟩
    exact filter_path_length_one files p
      (hA.imp (fun h => h.1)) hdup
  · cases q with
    | none => exact List.Pairwise.nil
    | some s => exact hA.sublist (List.filter_sublist files)
  · exact hA.sublist (List.filter_sublist files)

/-- Witness for C4 on a concrete filesystem where every path is a
directory: marking `/tmp/a` into an empty list yields an antichain with the
single expected entry. -/
theorem marked_files_antichain_witness :
    antichain (handleMarkedPost allDirsFS [] "/tmp/a").1 ∧
    (handleMarkedPost allDirsFS [] "/tmp/a").1 =
      [⟨"/tmp/a", "a", 0, 0, true⟩] := by
  constructor
  · exact ((marked_files_antichain allDirsFS [] "/tmp/a" none []
      (by intro pa qa _ _; exact ⟨⟨true, false, 0, 0⟩, rfl, rfl⟩)
      List.Pairwise.nil
      (by intro f hf; simp at hf)).1).1
  · rfl

/-- C1: the daemon's clipboard side-channel state is a text value paired with
a non-negative integer version served by `GET /api/clipboard` (text),
`GET /api/clipboard/version` (decimal integer as text) and
`POST /api/clipboard`; the version starts at 0, never decreases under any
request, and strictly increases by one on every successful write, even when
the new content equals the old. -/
theorem clipboard_version_monotone :
    clipRun [] = ⟨"", 0⟩ ∧
    (∀ ops : List ClipOp, 0 ≤ (clipRun ops).version) ∧
    (∀ (c : Clipboard) (op : ClipOp), c.version ≤ (clipStep c op).1.version) ∧
    (∀ (c : Clipboard) (body : String),
      (clipStep c (ClipOp.post body)).1.version = c.version + 1 ∧
      (clipStep c (ClipOp.post body)).1.text = body) ∧
    (∀ c : Clipboard, (clipStep c ClipOp.getVersion).2 = toString c.version) ∧
    (∀ c : Clipboard, (clipStep c ClipOp.getText).2 = c.text) := by
  refine ⟨rfl, ?_, ?_, fun c body => ⟨rfl, rfl⟩, fun c => rfl, fun c => rfl⟩
  · intro ops
    have main : ∀ (l : List ClipOp) (c : Clipboard), 0 ≤ c.version →
        0 ≤ (l.foldl (fun c op => (clipStep c op).1) c).version := by
      intro l
      induction l with
      | nil => intro c hc; simpa using hc
      | cons op rest ih =>
        intro c hc
        refine ih _ ?_
        cases op <;> simp [clipStep] <;> omega
    exact main ops clipboardInit (by simp [clipboardInit])
  · intro c op
    cases op <;> simp [clipStep]

/-- C10: `GET /api/ui-state` returns the validated state but leaves the
stored state untouched: after any number of GET requests the stored state is
what it was before them. -/
theorem handleUIState_get_pure :
    ∀ (live : List String) (stored : UIState) (n : Nat),
      (fun st => (handleUIState live st UIMethod.get).1)^[n] stored = stored ∧
      (handleUIState live stored UIMethod.get).1 = stored ∧
      (handleUIState live stored UIMethod.get).2.2 =
        some (validateUIState live stored) := by
  intro live stored n
  refine ⟨Function.iterate_fixed rfl n, rfl, rfl⟩

/-- C9: a POST to `/api/sessions/{id}/keys` on a live session whose body is
valid JSON with neither keys nor sequence fails inside `SendKeys` with
`no keys or sequence provided`, which matches none of the handler's
client-error patterns, so the response is the generic 500, not a 400. -/
theorem handleSessionKeys_empty_request_500 :
    (sendKeys (fun _ => none) demoGetSession "/sock" "session-7701"
        ⟨[], []⟩).err = some "no keys or sequence provided" ∧
    goContains "no keys or sequence provided" "session not found" = false ∧
    goContains "no keys or sequence provided" "invalid" = false ∧
    goContains "no keys or sequence provided" "too many" = false ∧
    goContains "no keys or sequence provided" "too long" = false ∧
    (handleSessionKeys (fun _ => none) demoGetSession "/sock" "session-7701"
        (KeysBody.ok ⟨[], []⟩)).1 = ⟨500, "Failed to send keys"⟩ ∧
    (handleSessionKeys (fun _ => none) demoGetSession "/sock" "session-7701"
        (KeysBody.ok ⟨[], []⟩)).1.status ≠ 400 := by
  exact ⟨rfl, rfl, rfl, rfl, rfl, rfl, by decide⟩

/-- C7: when a close empties the session map, the port counter returns to
its seed and the default-name counter to zero, so the next session created
with an empty requested name gets port seed+1, id `session-{seed+1}` and
name `1`. -/
theorem closeSession_last_resets_counters :
    ∀ (st : SMState) (id : String) (s : SessionRec),
      st.sessions = [(id, s)] →
      0 ≤ st.startPort → st.startPort + 1 < 2 ^ 31 →
      (closeSession st id).2 = none ∧
      (closeSession st id).1.nextPort = st.startPort ∧
      (closeSession st id).1.nextNameNum = 0 ∧
      (createSession (closeSession st id).1 "").2.port = st.startPort + 1 ∧
      (createSession (closeSession st id).1 "").2.id =
        "session-" ++ toString (st.startPort + 1) ∧
      (createSession (closeSession st id).1 "").2.name = "1" := by
  intro st id s hsess hlo hhi
  have hw : wrap32 (st.startPort + 1) = st.startPort + 1 :=
    wrap32_eq_self _ (by omega) (by omega)
  have hclose : closeSession st id =
      (resetCounters { st with sessions := [] }, none) := by
    unfold closeSession
    rw [hsess]
    simp [List.find?, List.filter]
  rw [hclose]
  refine ⟨rfl, rfl, rfl, ?_, ?_, ?_⟩ <;>
    · simp [createSession, resetCounters, hw,
        wrap32_eq_self 1 (by omega) (by omega)]
      try decide

/-- The type tag parsed from any message a scratch publisher can send is
never `init`: the subscriber loop only re-emits `text`, `toggle` or `clear`
events. -/
theorem parseScratchMsg_ne_init (m : String) (h : ScratchMsg m) :
    (parseScratchMsg m).type ≠ "init" := by
  cases h with
  | write t =>
    have : (parseScratchMsg ("text:" ++ t)).type = "text" := rfl
    rw [this]; decide
  | toggle t =>
    have : (parseScratchMsg ("toggle:" ++ t)).type = "toggle" := rfl
    rw [this]; decide
  | clear =>
    have : (parseScratchMsg "clear:").type = "clear" := rfl
    rw [this]; decide

/-- C8: every event-stream subscriber (scratch and marked) receives exactly
one `init` event, and it is the first event on its stream, before any other
event delivered to that subscriber. -/
theorem streams_init_first :
    (∀ (current : String) (msgs : List String),
      (∀ m ∈ msgs, ScratchMsg m) →
      (scratchStream current msgs).head? = some ⟨"init", current⟩ ∧
      ((scratchStream current msgs).filter
        (fun e => e.type == "init")).length = 1) ∧
    (∀ (current : List MarkedFile) (snapshots : List (List MarkedFile)),
      (markedStream current snapshots).head? = some ⟨"init", current⟩ ∧
      ((markedStream current snapshots).filter
        (fun e => e.type == "init")).length = 1) := by
  constructor
  · intro current msgs hm
    refine ⟨rfl, ?_⟩
    have hrest : (msgs.map parseScratchMsg).filter (fun e => e.type == "init") = [] := by
      rw [List.filter_eq_nil_iff]
      intro e he
      rw [List.mem_map] at he
      obtain ⟨m, hm', rfl⟩ := he
      simpa using parseScratchMsg_ne_init m (hm m hm')
    rw [scratchStream, List.filter_cons_of_pos rfl, hrest]
    rfl
  · intro current snapshots
    refine ⟨rfl, ?_⟩
    have hrest : ((snapshots.map (fun fs => (⟨"update", fs⟩ : MarkedEvent))).filter
        (fun e => e.type == "init")) = [] := by
      rw [List.filter_eq_nil_iff]
      intro e he
      rw [List.mem_map] at he
      obtain ⟨m, _, rfl⟩ := he
      simp
    rw [markedStream, List.filter_cons_of_pos rfl, hrest]
    rfl

/-- Witness for C8 on a concrete subscriber history: an initial text `cur`
and two published messages. -/
theorem streams_init_first_witness :
    (scratchStream "cur" ["text:hi", "clear:"]).head? = some ⟨"init", "cur"⟩ ∧
    ((scratchStream "cur" ["text:hi", "clear:"]).filter
      (fun e => e.type == "init")).length = 1 := by
  refine streams_init_first.1 "cur" ["text:hi", "clear:"] ?_
  intro m hm
  rcases List.mem_cons.mp hm with rfl | hm
  · exact ScratchMsg.write "hi"
  · rcases List.mem_cons.mp hm with rfl | hm
    · exact ScratchMsg.clear
    · simp at hm

/-- Witness for C7 at a concrete state: one live session on port 7701 with
seed 7700; closing it resets the counters and the next session is
`session-7701` named `1`. -/
theorem closeSession_last_resets_counters_witness :
    (closeSession ⟨[("session-7701", ⟨"session-7701", "1", 7701, "mux-7701"⟩)],
        7701, 1, 7700⟩ "session-7701").2 = none ∧
    (closeSession ⟨[("session-7701", ⟨"session-7701", "1", 7701, "mux-7701"⟩)],
        7701, 1, 7700⟩ "session-7701").1.nextPort = 7700 ∧
    (closeSession ⟨[("session-7701", ⟨"session-7701", "1", 7701, "mux-7701"⟩)],
        7701, 1, 7700⟩ "session-7701").1.nextNameNum = 0 ∧
    (createSession (closeSession ⟨[("session-7701",
        ⟨"session-7701", "1", 7701, "mux-7701"⟩)], 7701, 1, 7700⟩
        "session-7701").1 "").2.port = 7701 ∧
    (createSession (closeSession ⟨[("session-7701",
        ⟨"session-7701", "1", 7701, "mux-7701"⟩)], 7701, 1, 7700⟩
        "session-7701").1 "").2.id = "session-" ++ toString (7700 + 1 : Int) ∧
    (createSession (closeSession ⟨[("session-7701",
        ⟨"session-7701", "1", 7701, "mux-7701"⟩)], 7701, 1, 7700⟩
        "session-7701").1 "").2.name = "1" := by
  have h := closeSession_last_resets_counters
    ⟨[("session-7701", ⟨"session-7701", "1", 7701, "mux-7701"⟩)], 7701, 1, 7700⟩
    "session-7701" ⟨"session-7701", "1", 7701, "mux-7701"⟩ rfl (by decide) (by decide)
  simpa using h

/-- Boolean list containment agrees with membership. -/
theorem contains_iff_mem (l : List String) (a : String) :
    l.contains a = true ↔ a ∈ l := by
  simp [List.contains]

/-- The default element returned by `headD` on a nonempty list is a member. -/
theorem headD_mem (l : List String) (h : l.length > 0) : l.headD "" ∈ l := by
  cases l with
  | nil => simp at h
  | cons a t => simp [List.headD]

/-- Unfolding `appendMissing` on an empty group list. -/
theorem appendMissing_nil (ord : List String) : appendMissing [] ord = ord := rfl

/-- Unfolding `appendMissing` on a group-list cons. -/
theorem appendMissing_cons (g : UIGroup) (rest : List UIGroup) (ord : List String) :
    appendMissing (g :: rest) ord =
      appendMissing rest (if ord.contains g.id then ord else ord ++ [g.id]) := rfl

/-- Membership in the rebuilt order: an id is listed exactly when it was in
the incoming order or is the id of a kept group. -/
theorem mem_appendMissing (x : String) :
    ∀ (l : List UIGroup) (ord : List String),
      x ∈ appendMissing l ord ↔ x ∈ ord ∨ x ∈ l.map UIGroup.id := by
  intro l
  induction l with
  | nil => intro ord; simp [appendMissing_nil]
  | cons g rest ih =>
    intro ord
    rw [appendMissing_cons]
    by_cases hc : ord.contains g.id = true
    · rw [if_pos hc, ih ord]
      simp only [List.map_cons, List.mem_cons]
      constructor
      · rintro (h | h)
        · exact Or.inl h
        · exact Or.inr (Or.inr h)
      · rintro (h | h | h)
        · exact Or.inl h
        · rw [h]; exact Or.inl ((contains_iff_mem ord g.id).mp hc)
        · exact Or.inr h
    · rw [if_neg hc, ih (ord ++ [g.id])]
      simp only [List.mem_append, List.mem_singleton, List.map_cons, List.mem_cons]
      tauto

/-- When every kept group id is already in the order, the append phase is
the identity. -/
theorem appendMissing_fixed :
    ∀ (l : List UIGroup) (ord : List String),
      (∀ g ∈ l, ord.contains g.id = true) → appendMissing l ord = ord := by
  intro l
  induction l with
  | nil => intro ord _; rfl
  | cons g rest ih =>
    intro ord h
    rw [appendMissing_cons, if_pos (h g (by simp))]
    exact ih ord (fun g' hg' => h g' (List.mem_cons_of_mem _ hg'))

/-- A `filterMap` whose function fixes every member of the list is the
identity. -/
theorem filterMap_id_of_some {α : Type} (f : α → Option α) :
    ∀ (l : List α), (∀ x ∈ l, f x = some x) → l.filterMap f = l := by
  intro l
  induction l with
  | nil => intro _; rfl
  | cons a t ih =>
    intro h
    rw [List.filterMap_cons, h a (by simp), ih (fun x hx => h x (List.mem_cons_of_mem _ hx))]

/-- What surviving validation of a group means: the id is preserved, the
session ids are exactly the live ones, and at least one survives. -/
theorem validateGroup_some_facts (live : List String) (g g' : UIGroup)
    (h : validateGroup live g = some g') :
    g'.id = g.id ∧
    g'.sessionIds = g.sessionIds.filter (fun sid => live.contains sid) ∧
    g'.sessionIds ≠ [] := by
  unfold validateGroup at h
  split at h
  · rename_i hpos
    split at h
    · injection h with h
      subst h
      exact ⟨rfl, rfl, List.ne_nil_of_length_pos hpos⟩
    · injection h with h
      subst h
      exact ⟨rfl, rfl, List.ne_nil_of_length_pos hpos⟩
  · exact absurd h (by simp)

/-- A group that survived validation is a fixed point of validation. -/
theorem validateGroup_idem (live : List String) (g g' : UIGroup)
    (h : validateGroup live g = some g') : validateGroup live g' = some g' := by
  obtain ⟨-, hsid, hne⟩ := validateGroup_some_facts live g g' h
  have hlive : ∀ sid ∈ g'.sessionIds, live.contains sid = true := by
    intro sid hs
    rw [hsid] at hs
    simpa using (List.mem_filter.mp hs).2
  have hfix : g'.sessionIds.filter (fun sid => live.contains sid) = g'.sessionIds :=
    List.filter_eq_self.mpr (by intro a ha; simpa using hlive a ha)
  unfold validateGroup
  rw [hfix, if_pos (List.length_pos.mpr hne), if_neg (by simp)]

/-- Membership characterization of the kept groups. -/
theorem mem_validGroupsOf (live : List String) (s : UIState) (g' : UIGroup) :
    g' ∈ validGroupsOf live s ↔
      ∃ g ∈ s.groups, validateGroup live g = some g' := by
  unfold validGroupsOf
  rw [List.mem_filterMap]

/-- The rebuilt order lists exactly the ids of the kept groups. -/
theorem mem_validOrderOf (live : List String) (s : UIState) (x : String) :
    x ∈ validOrderOf live s ↔ x ∈ validIdsOf live s := by
  unfold validOrderOf
  rw [mem_appendMissing]
  constructor
  · rintro (h | h)
    · exact (contains_iff_mem _ _).mp (by simpa using (List.mem_filter.mp h).2)
    · exact h
  · intro h
    exact Or.inr h

/-- C6: the output of UI-state validation satisfies the invariants: every
referenced session id — in the group session lists and in the custom-names
list — is live, every group is nonempty, the order lists
exactly the surviving groups, the active group id is empty or surviving,
any group whose live-session count differs from its stored count has layout,
ratio and pane mapping reset to defaults, and the counter is zero when no
groups remain. -/
theorem validateUIState_invariants :
    ∀ (live : List String) (s : UIState),
      (∀ g ∈ (validateUIState live s).groups, ∀ sid ∈ g.sessionIds, sid ∈ live) ∧
      (∀ sid ∈ (validateUIState live s).customNames, sid ∈ live) ∧
      (∀ g ∈ (validateUIState live s).groups, g.sessionIds ≠ []) ∧
      (∀ gid, gid ∈ (validateUIState live s).groupOrder ↔
        gid ∈ (validateUIState live s).groups.map UIGroup.id) ∧
      ((validateUIState live s).activeGroupId = "" ∨
        (validateUIState live s).activeGroupId ∈
          (validateUIState live s).groups.map UIGroup.id) ∧
      (∀ g ∈ s.groups,
        (g.sessionIds.filter (fun sid => live.contains sid)).length ≠
          g.sessionIds.length →
        g.sessionIds.filter (fun sid => live.contains sid) ≠ [] →
        { g with
          sessionIds := g.sessionIds.filter (fun sid => live.contains sid),
          layout := getDefaultLayout
            (g.sessionIds.filter (fun sid => live.contains sid)).length,
          splitRatios := getDefaultSplitRatios
            (g.sessionIds.filter (fun sid => live.contains sid)).length,
          cellMapping := [] } ∈ (validateUIState live s).groups) ∧
      ((validateUIState live s).groups = [] →
        (validateUIState live s).groupCounter = 0) := by
  intro live s
  refine ⟨?_, ?_, ?_, ?_, ?_, ?_, ?_⟩
  · intro g hg sid hs
    obtain ⟨g₀, _, he⟩ := (mem_validGroupsOf live s g).mp hg
    obtain ⟨-, hsid, -⟩ := validateGroup_some_facts live g₀ g he
    rw [hsid] at hs
    exact (contains_iff_mem live sid).mp (by simpa using (List.mem_filter.mp hs).2)
  · intro sid hs
    have : sid ∈ s.customNames.filter (fun sid => live.contains sid) := hs
    exact (contains_iff_mem live sid).mp (by simpa using (List.mem_filter.mp this).2)
  · intro g hg
    obtain ⟨g₀, _, he⟩ := (mem_validGroupsOf live s g).mp hg
    exact (validateGroup_some_facts live g₀ g he).2.2
  · intro gid
    exact mem_validOrderOf live s gid
  · show activeOf live s = "" ∨ activeOf live s ∈ validIdsOf live s
    unfold activeOf
    by_cases h1 : ¬ ((validIdsOf live s).contains s.activeGroupId = true) ∧
        (validOrderOf live s).length > 0
    · rw [if_pos h1]
      exact Or.inr ((mem_validOrderOf live s _).mp (headD_mem _ h1.2))
    · rw [if_neg h1]
      by_cases h2 : (validOrderOf live s).length = 0
      · rw [if_pos h2]
        exact Or.inl rfl
      · rw [if_neg h2]
        rcases Decidable.not_and_iff_or_not.mp h1 with h1' | h1'
        · rw [Decidable.not_not] at h1'
          exact Or.inr ((contains_iff_mem _ _).mp h1')
        · exact absurd (Nat.pos_of_ne_zero h2) h1'
  · intro g hg hcount hne
    refine (mem_validGroupsOf live s _).mpr ⟨g, hg, ?_⟩
    unfold validateGroup
    rw [if_pos (List.length_pos.mpr hne), if_pos hcount]
  · intro h0
    show (if (validGroupsOf live s).length = 0 then 0 else s.groupCounter) = 0
    rw [if_pos]
    rw [show (validateUIState live s).groups = validGroupsOf live s from rfl] at h0
    rw [h0]
    rfl

/-- C5: UI-state validation is idempotent: for every state and fixed live
session set, validating twice gives the same result as validating once. -/
theorem validateUIState_idempotent :
    ∀ (live : List String) (s : UIState),
      validateUIState live (validateUIState live s) = validateUIState live s := by
  intro live s
  have hgroups : validGroupsOf live (validateUIState live s) =
      (validateUIState live s).groups := by
    refine filterMap_id_of_some _ _ ?_
    intro g hg
    obtain ⟨g₀, _, he⟩ := (mem_validGroupsOf live s g).mp hg
    exact validateGroup_idem live g₀ g he
  have hids : validIdsOf live (validateUIState live s) = validIdsOf live s := by
    unfold validIdsOf
    rw [hgroups]
    rfl
  have horder : validOrderOf live (validateUIState live s) =
      (validateUIState live s).groupOrder := by
    unfold validOrderOf
    have hf : (validateUIState live s).groupOrder.filter
        (fun gid => (validIdsOf live (validateUIState live s)).contains gid) =
        (validateUIState live s).groupOrder := by
      refine List.filter_eq_self.mpr ?_
      intro a ha
      have : a ∈ validIdsOf live s :=
        (mem_validOrderOf live s a).mp ha
      simpa [hids] using (contains_iff_mem _ a).mpr this
    rw [hf, hgroups]
    refine appendMissing_fixed _ _ ?_
    intro g hg
    refine (contains_iff_mem _ _).mpr ?_
    refine (mem_validOrderOf live s g.id).mpr ?_
    exact List.mem_map_of_mem UIGroup.id hg
  have hcustom : (validateUIState live s).customNames.filter
      (fun sid => live.contains sid) = (validateUIState live s).customNames := by
    refine List.filter_eq_self.mpr ?_
    intro a ha
    exact (List.mem_filter.mp ha).2
  have horderlen : validOrderOf live s = [] ↔ validGroupsOf live s = [] := by
    constructor
    · intro h
      rw [List.eq_nil_iff_forall_not_mem]
      intro g hg
      have : g.id ∈ validOrderOf live s :=
        (mem_validOrderOf live s g.id).mpr (List.mem_map_of_mem UIGroup.id hg)
      rw [h] at this
      exact absurd this (List.not_mem_nil _)
    · intro h
      rw [List.eq_nil_iff_forall_not_mem]
      intro x hx
      have : x ∈ validIdsOf live s := (mem_validOrderOf live s x).mp hx
      rw [validIdsOf, h] at this
      exact absurd this (List.not_mem_nil _)
  have hOG : (validateUIState live s).groupOrder = validOrderOf live s := rfl
  have hAG : (validateUIState live s).activeGroupId = activeOf live s := rfl
  have hordout : validOrderOf live (validateUIState live s) = validOrderOf live s :=
    horder.trans hOG
  have hactive : activeOf live (validateUIState live s) =
      (validateUIState live s).activeGroupId := by
    by_cases hg0 : validGroupsOf live s = []
    · have hord0 : validOrderOf live s = [] := horderlen.mpr hg0
      have h1 : activeOf live s = "" := by
        unfold activeOf
        have hc1 : ¬ (¬ ((validIdsOf live s).contains s.activeGroupId = true) ∧
            (validOrderOf live s).length > 0) := by
          intro h
          rw [hord0] at h
          exact absurd h.2 (by simp)
        rw [if_neg hc1, if_pos (by rw [hord0]; rfl)]
      rw [hAG, h1]
      unfold activeOf
      have hc1 : ¬ (¬ ((validIdsOf live (validateUIState live s)).contains
          (validateUIState live s).activeGroupId = true) ∧
          (validOrderOf live (validateUIState live s)).length > 0) := by
        intro h
        rw [hordout, hord0] at h
        exact absurd h.2 (by simp)
      rw [if_neg hc1, if_pos (by rw [hordout, hord0]; rfl)]
    · have hordne : validOrderOf live s ≠ [] := fun h => hg0 (horderlen.mp h)
      have hmem : activeOf live s ∈ validIdsOf live s := by
        unfold activeOf
        by_cases h1 : ¬ ((validIdsOf live s).contains s.activeGroupId = true) ∧
            (validOrderOf live s).length > 0
        · rw [if_pos h1]
          exact (mem_validOrderOf live s _).mp (headD_mem _ h1.2)
        · rw [if_neg h1]
          by_cases h2 : (validOrderOf live s).length = 0
          · exact absurd (List.length_eq_zero.mp h2) hordne
          · rw [if_neg h2]
            rcases Decidable.not_and_iff_or_not.mp h1 with h1' | h1'
            · rw [Decidable.not_not] at h1'
              exact (contains_iff_mem _ _).mp h1'
            · exact absurd (Nat.pos_of_ne_zero h2) h1'
      have hcont : (validIdsOf live (validateUIState live s)).contains
          (validateUIState live s).activeGroupId = true := by
        rw [hids, hAG]
        exact (contains_iff_mem _ _).mpr hmem
      unfold activeOf
      rw [if_neg (fun h => h.1 hcont),
        if_neg (by rw [hordout]; intro h; exact hordne (List.length_eq_zero.mp h))]
  have hcounter : (if ((validateUIState live s).groups).length = 0 then 0
      else (validateUIState live s).groupCounter) =
      (validateUIState live s).groupCounter := by
    have hGG : (validateUIState live s).groups = validGroupsOf live s := rfl
    by_cases hg0 : validGroupsOf live s = []
    · rw [if_pos (by rw [hGG, hg0]; rfl)]
      show 0 = (if (validGroupsOf live s).length = 0 then 0 else s.groupCounter)
      rw [if_pos (by rw [hg0]; rfl)]
    · rw [if_neg (by rw [hGG]; intro h; exact hg0 (List.length_eq_zero.mp h))]
  calc validateUIState live (validateUIState live s)
      = { groups := validGroupsOf live (validateUIState live s)
          groupOrder := validOrderOf live (validateUIState live s)
          activeGroupId := activeOf live (validateUIState live s)
          groupCounter := if (validGroupsOf live (validateUIState live s)).length = 0
            then 0 else (validateUIState live s).groupCounter
          sidebarCollapsed := (validateUIState live s).sidebarCollapsed
          customNames := (validateUIState live s).customNames.filter
            (fun sid => live.contains sid) } := rfl
    _ = validateUIState live s := by
        rw [hgroups, horder, hactive, hcustom, hcounter]

/-- Witness for C6 at a concrete input: with no live sessions, validating
the demo state empties the groups and resets the counter to zero. -/
theorem validateUIState_invariants_witness :
    (validateUIState [] demoUIState).groupCounter = 0 := by
  refine (validateUIState_invariants [] demoUIState).2.2.2.2.2.2 ?_
  decide

end Webmux
